import Mathlib

/-!
Verification of the `solaire` code-editor core: fold-region analysis and
toggling (`solaire/core/code_editor/code_editor.py`), the asynchronous
completion pipeline (`code_editor.py` together with
`code_editor/completion.py`), and the minimap cache invalidation
(`solaire/core/minimap.py`).

A document is modelled as the list of its lines, each line a `List Char`
(Qt text blocks carry no trailing newline).  Block numbers are `Int`,
as in the Python source, where `get_block_number_at_pos` can return `-1`.
-/

/-- Python `str.lstrip()` on a line: drop leading whitespace. -/
def lstrip (s : List Char) : List Char :=
  s.dropWhile Char.isWhitespace

/-- Python `str.rstrip()` on a line: drop trailing whitespace. -/
def rstrip (s : List Char) : List Char :=
  (s.reverse.dropWhile Char.isWhitespace).reverse

/-- Leading-whitespace count of a line, as computed in
`_analyze_colon_blocks`: `len(text) - len(text.lstrip())`. -/
def indentOf (s : List Char) : Nat :=
  s.length - (lstrip s).length

/-- Does the line end (after stripping) with the character `c`?
Models Python `str.endswith` on a single character. -/
def endsWithChar (c : Char) (s : List Char) : Bool :=
  match s.getLast? with
  | some c' => c' == c
  | none => false

/-- Condition under which `_analyze_colon_blocks` treats a line as a block
opener: `stripped and stripped.rstrip().endswith(':')`. -/
def isColonOpener (s : List Char) : Bool :=
  !(lstrip s).isEmpty && endsWithChar ':' (rstrip (lstrip s))

/-- `FoldRegion` from `solaire/core/code_editor/folding.py`. -/
structure FoldRegion where
  start_block : Int
  end_block : Int
  is_folded : Bool
deriving DecidableEq

/-- The editor's `_fold_regions` dictionary: start block number to region. -/
def FoldMap : Type :=
  Int → Option FoldRegion

/-- The cleared `_fold_regions` dictionary. -/
def emptyFoldMap : FoldMap :=
  fun _ => none

/-- `self._fold_regions[key] = region` (overwrites an existing entry). -/
def insertRegion (k : Int) (r : FoldRegion) (m : FoldMap) : FoldMap :=
  fun k' => if k' = k then some r else m k'

/-- Left-biased choice on optional regions; used to state that a map built
by a pass over an initial map agrees with the pass's own writes first. -/
def orElseOpt (a b : Option FoldRegion) : Option FoldRegion :=
  match a with
  | some v => some v
  | none => b

/-- The inner `while next_block.isValid()` scan of `_analyze_colon_blocks`:
given the opener's indent `level`, the current `end_block` candidate
`endSoFar`, the block number `j` of the first line of `ls`, return the final
`end_block`.  Blank lines are skipped; the first non-blank line with indent
`≤ level` stops the scan; other lines become the new candidate end. -/
def scanEnd (level : Nat) (endSoFar j : Int) (ls : List (List Char)) : Int :=
  match ls with
  | [] => endSoFar
  | t :: ts =>
    if lstrip t = [] then scanEnd level endSoFar (j + 1) ts
    else if indentOf t ≤ level then endSoFar
    else scanEnd level j (j + 1) ts

/-- The outer loop of `_analyze_colon_blocks`: `bn` is the block number of
the first line of `ls`; for each opener line, scan forward and record a
region when `end_block > start_block`. -/
def colonAux (bn : Int) (ls : List (List Char)) (m : FoldMap) : FoldMap :=
  match ls with
  | [] => m
  | l :: rest =>
    colonAux (bn + 1) rest
      (if isColonOpener l then
        (if bn < scanEnd (indentOf l) bn (bn + 1) rest then
          insertRegion bn ⟨bn, scanEnd (indentOf l) bn (bn + 1) rest, false⟩ m
        else m)
      else m)

/-- `CodeEditor._analyze_colon_blocks`, applied to a cleared map. -/
def analyze_colon_blocks (doc : List (List Char)) : FoldMap :=
  colonAux 0 doc emptyFoldMap

/-- `ch in opening_tokens` for `opening_tokens = {'{':'}', '[':']', '(':')'}`. -/
def isOpenTok (c : Char) : Bool :=
  c == '{' || c == '[' || c == '('

/-- `ch in opening_tokens.values()`. -/
def isCloseTok (c : Char) : Bool :=
  c == '}' || c == ']' || c == ')'

/-- `opening_tokens[open_ch]`. -/
def closingOf (c : Char) : Char :=
  if c = '{' then '}' else if c = '[' then ']' else ')'

/-- One character step of `_analyze_paired_char_blocks`: push an opener,
match a closer against the top of the stack (pop and possibly record a
region when the closing block strictly exceeds the opening block; a
mismatched or unmatched closer is silently ignored). -/
def pairedStep (bn : Int) (st : List (Char × Int)) (m : FoldMap) (c : Char) :
    List (Char × Int) × FoldMap :=
  if isOpenTok c then ((c, bn) :: st, m)
  else if isCloseTok c then
    match st with
    | [] => (st, m)
    | (oc, ob) :: rest =>
      if closingOf oc = c then
        if ob < bn then (rest, insertRegion ob ⟨ob, bn, false⟩ m) else (rest, m)
      else (st, m)
  else (st, m)

/-- The `for i, ch in enumerate(text)` loop of `_analyze_paired_char_blocks`
over the characters of one (right-stripped) line. -/
def pairedLine (bn : Int) (cs : List Char) (st : List (Char × Int)) (m : FoldMap) :
    List (Char × Int) × FoldMap :=
  match cs with
  | [] => (st, m)
  | c :: cs' =>
    pairedLine bn cs' (pairedStep bn st m c).1 (pairedStep bn st m c).2

/-- The block loop of `_analyze_paired_char_blocks`: thread the bracket
stack and the map across lines, right-stripping each line first. -/
def pairedAux (bn : Int) (ls : List (List Char)) (st : List (Char × Int))
    (m : FoldMap) : FoldMap :=
  match ls with
  | [] => m
  | l :: rest =>
    pairedAux (bn + 1) rest (pairedLine bn (rstrip l) st m).1
      (pairedLine bn (rstrip l) st m).2

/-- `CodeEditor._analyze_paired_char_blocks` run on its own, from a cleared
map (what the pass "would record"). -/
def analyze_paired_char_blocks (doc : List (List Char)) : FoldMap :=
  pairedAux 0 doc [] emptyFoldMap

/-- `CodeEditor.analyze_fold_regions`: clear the map, run the indentation
pass, then run the paired-delimiter pass over its result. -/
def analyze_fold_regions (doc : List (List Char)) : FoldMap :=
  pairedAux 0 doc [] (colonAux 0 doc emptyFoldMap)

/-- The fold-relevant state of a `CodeEditor`: the `_fold_regions` map, the
per-block visibility flags of the document, and a count of
`folding_changed` emissions. -/
structure EditorFoldState where
  regions : FoldMap
  visible : Int → Bool
  foldEmits : Nat

/-- `CodeEditor.toggle_fold`: absent keys are a no-op; otherwise flip
`is_folded` and set every block in `range(start_block+1, end_block+1)`
visible iff the region is now unfolded (`setVisible(not region.is_folded)`
after the flip), then emit `folding_changed`. -/
def toggle_fold (block_number : Int) (s : EditorFoldState) : EditorFoldState :=
  match s.regions block_number with
  | none => s
  | some region =>
    { regions := insertRegion block_number
        ⟨region.start_block, region.end_block, !region.is_folded⟩ s.regions
      visible := fun i =>
        if region.start_block + 1 ≤ i ∧ i ≤ region.end_block then
          !(!region.is_folded)
        else s.visible i
      foldEmits := s.foldEmits + 1 }

/-- Identifier-class characters walked over by `_current_prefix`:
`ch.isalnum() or ch == '_'` (ASCII reading of `isalnum`). -/
def isIdentChar (c : Char) : Bool :=
  c.isAlphanum || c == '_'

/-- The backward walk of `_current_prefix`, phrased on the reversed initial
segment of the line: take identifier characters until the first
non-identifier character. -/
def identScan : List Char → List Char
  | [] => []
  | c :: rest => if isIdentChar c then c :: identScan rest else []

/-- `CodeEditor._current_prefix`: the `[A-Za-z0-9_]+` run immediately left
of the caret at 0-based column `col` of `lineText`, or `[]` when the caret
is at column 0 or the line is empty. -/
def current_word (lineText : List Char) (col : Nat) : List Char :=
  if col = 0 ∨ lineText = [] then []
  else (identScan (lineText.take col).reverse).reverse

/-- `CodeEditor._char_left_of_caret`: `line_text[col - 1]`, or nothing at
column 0 / on an empty line (Python returns `''`). -/
def char_left_of_caret (lineText : List Char) (col : Nat) : Option Char :=
  if col = 0 ∨ lineText = [] then none
  else lineText.get? (col - 1)

/-- The completion-pipeline state owned by the UI thread:
`_completion_job_id`, `_pending_completion_args`, whether the debounce
`_completion_timer` is running, and the popup (hidden, or showing a
candidate list). -/
structure CompletionState where
  jobId : Nat
  pending : Option (String × Nat × Nat)
  timerActive : Bool
  popup : Option (List String)
deriving DecidableEq

/-- `CodeEditor._maybe_trigger_completions`: on a read-only editor, hide
the popup; with an empty caret word whose left neighbour is not `'.'`,
hide the popup and make no request; otherwise store the captured document
context, increment the job counter and (re)start the debounce timer. -/
def maybe_trigger_completions (readOnly : Bool) (lineText : List Char)
    (col : Nat) (docText : String) (docLine docCol : Nat)
    (s : CompletionState) : CompletionState :=
  if readOnly then { s with popup := none }
  else if current_word lineText col = [] ∧
      char_left_of_caret lineText col ≠ some '.' then
    { s with popup := none }
  else
    { s with
        pending := some (docText, docLine, docCol)
        jobId := s.jobId + 1
        timerActive := true }

/-- `CodeEditor._on_completion_results`: drop results whose job id is not
the latest issued one; an empty list hides the popup; otherwise show the
candidates when auto-suggest is enabled. -/
def on_completion_results (autoSuggest : Bool) (job_id : Nat)
    (names : List String) (s : CompletionState) : CompletionState :=
  if job_id ≠ s.jobId then s
  else if names = [] then { s with popup := none }
  else if autoSuggest then { s with popup := some names }
  else s

/-- `CompletionWorker.request` from `code_editor/completion.py`: the
static-analysis provider either yields an ordered candidate list or raises;
a raise is converted to an empty list and the first 64 names are kept
(`comps[:64]`).  The emitted pair is `(job_id, names)`. -/
def worker_request (provider : String → Nat → Nat → Except String (List String))
    (text : String) (line col job_id : Nat) : Nat × List String :=
  match provider text line col with
  | Except.error _ => (job_id, [])
  | Except.ok comps => (job_id, comps.take 64)

/-- `chosen.split('(', 1)[0] if '(' in chosen else chosen` from
`_insert_completion`. -/
def name_only_of (chosen : List Char) : List Char :=
  if chosen.contains '(' then chosen.takeWhile (fun c => c ≠ '(') else chosen

/-- Modelled from the spec's words for comparison: the candidate's "bare
name", the portion before any `'('` call-signature suffix. -/
def specBareName (chosen : List Char) : List Char :=
  chosen.takeWhile (fun c => c ≠ '(')

/-- The text inserted by `CodeEditor._insert_completion` for a chosen
candidate and the typed caret word: the bare name's remainder after the
word when the word is a prefix of it, the whole bare name otherwise. -/
def insert_completion_text (chosen typed : List Char) : List Char :=
  if typed.isPrefixOf (name_only_of chosen) then
    (name_only_of chosen).drop typed.length
  else name_only_of chosen

/-- The minimap's cached data (`solaire/core/minimap.py`): `_color_cache`
(character position to colour), `_cached_lines`, and
`_cached_visible_blocks` (`none` models Python `None`). -/
structure MinimapCacheState where
  colorCache : List (Int × Nat)
  cachedLines : List String
  cachedVisibleBlocks : Option (List Int)
deriving DecidableEq

/-- `CodeMiniMap._on_text_changed`: clear the colour cache, empty the
cached lines and unset the visible-blocks cache. -/
def minimap_on_text_changed (_s : MinimapCacheState) : MinimapCacheState :=
  { colorCache := [], cachedLines := [], cachedVisibleBlocks := none }

/-- `CodeMiniMap._on_folding_changed`: unset only the visible-blocks
cache. -/
def minimap_on_folding_changed (s : MinimapCacheState) : MinimapCacheState :=
  { s with cachedVisibleBlocks := none }

/-- The `hasattr(editor, 'foldingChanged')` guard in `CodeMiniMap.__init__`
deciding whether `_on_folding_changed` is connected at all, over the
editor's attribute names. -/
def hasFoldingChangedAttr (attrs : List String) : Bool :=
  attrs.contains "foldingChanged"

/-- The signal attribute names `CodeEditor` declares (code_editor.py,
class body: `indented`, `unindented`, `commented`, `uncommented`,
`folding_changed`); neither these nor any inherited `QPlainTextEdit`
member is named `foldingChanged`. -/
def codeEditorAttrNames : List String :=
  ["indented", "unindented", "commented", "uncommented", "folding_changed"]

/-- Effect on the minimap of the editor emitting its folding-change
signal: the handler runs only if it was connected in `__init__`. -/
def deliver_folding_changed (attrs : List String) (s : MinimapCacheState) :
    MinimapCacheState :=
  if hasFoldingChangedAttr attrs then minimap_on_folding_changed s else s

/-- A document on which both passes record a region at start line 0:
line 0 both ends with `':'` and opens a `'['` closed on line 2. -/
def demoDocBoth : List (List Char) :=
  ["if x[:", "  y", "]"].map String.toList

/-- A colon block with an interspersed blank line and trailing dedent. -/
def demoDocColon : List (List Char) :=
  ["if a:", "  b", "", "  c", "d"].map String.toList

/-- A minimal one-region document. -/
def demoDocMin : List (List Char) :=
  ["if a:", "  b"].map String.toList

/-- All-visible editor state with a single region `(0, 2)`. -/
def demoFoldState : EditorFoldState :=
  ⟨fun k => if k = 0 then some ⟨0, 2, false⟩ else none, fun _ => true, 0⟩

/-- Editor state with an outer region `(0, 5)` and a nested region
`(2, 4)` that is currently folded, so blocks 3 and 4 are hidden. -/
def demoNestedState : EditorFoldState :=
  ⟨fun k =>
      if k = 0 then some ⟨0, 5, false⟩
      else if k = 2 then some ⟨2, 4, true⟩
      else none,
    fun i => if 3 ≤ i ∧ i ≤ 4 then false else true, 0⟩

/-- Editor state with one region `(1, 3)`, used for the absent-key no-op. -/
def demoToggleState : EditorFoldState :=
  ⟨fun k => if k = 1 then some ⟨1, 3, false⟩ else none, fun _ => true, 0⟩

/-- The idle completion state at editor construction. -/
def initialCompletionState : CompletionState :=
  ⟨0, none, false, none⟩

/-- One accepted keystroke with caret word "pri" at column 3 of line 1. -/
def demo_keystroke (s : CompletionState) : CompletionState :=
  maybe_trigger_completions false ("pri".toList) 3 "pri" 1 3 s

/-- Completion state after three keystrokes issued jobs 1, 2, 3. -/
def issued_three : CompletionState :=
  demo_keystroke (demo_keystroke (demo_keystroke initialCompletionState))

/-- A minimap state whose caches are all populated. -/
def demoMinimapState : MinimapCacheState :=
  ⟨[(0, 1)], ["x"], some [0]⟩

/-! Helper lemmas. -/

theorem insertRegion_self (k : Int) (r : FoldRegion) (m : FoldMap) :
    insertRegion k r m k = some r := by
  simp [insertRegion]

theorem insertRegion_ne (k k' : Int) (r : FoldRegion) (m : FoldMap)
    (h : k' ≠ k) : insertRegion k r m k' = m k' := by
  simp [insertRegion, h]

/-- Iterations of the colon pass never write a key below the current block
number. -/
theorem colonAux_lt (ls : List (List Char)) :
    ∀ (bn : Int) (m : FoldMap) (s : Int), s < bn → colonAux bn ls m s = m s := by
  induction ls with
  | nil => intro bn m s _; rfl
  | cons l rest ih =>
    intro bn m s hs
    simp only [colonAux]
    rw [ih (bn + 1) _ s (by omega)]
    split
    · split
      · exact insertRegion_ne _ _ _ _ (by omega)
      · rfl
    · rfl

/-- Value of the colon pass at the block number of a given opener line:
when that line opens a block and its scan reaches past the opener,
the recorded region is exactly the scan result, independently of the
initial map and of all other lines. -/
theorem colonAux_at (pre : List (List Char)) :
    ∀ (bn : Int) (m : FoldMap) (opener : List Char) (rest : List (List Char))
      (k e : Int),
      k = bn + pre.length →
      isColonOpener opener = true →
      e = scanEnd (indentOf opener) k (k + 1) rest →
      k < e →
      colonAux bn (pre ++ opener :: rest) m k = some ⟨k, e, false⟩ := by
  induction pre with
  | nil =>
    intro bn m opener rest k e hk hop he hlt
    have hkbn : k = bn := by simpa using hk
    subst hkbn
    simp only [List.nil_append, colonAux]
    rw [colonAux_lt rest (k + 1) _ k (by omega)]
    rw [← he] at *
    simp only [hop, if_true]
    rw [if_pos hlt]
    exact insertRegion_self k ⟨k, e, false⟩ m
  | cons p pre' ih =>
    intro bn m opener rest k e hk hop he hlt
    have hk' : k = (bn + 1) + (pre'.length : Int) := by
      simp only [List.length_cons] at hk
      push_cast at hk ⊢
      omega
    simp only [List.cons_append, colonAux]
    exact ih (bn + 1) _ opener rest k e hk' hop he hlt

/-- A run of blank lines followed by a non-blank dedented line leaves the
scan's current end untouched. -/
theorem scanEnd_blanks (blanks : List (List Char)) :
    ∀ (level : Nat) (e j : Int) (closer : List Char) (post : List (List Char)),
      (∀ b ∈ blanks, lstrip b = []) →
      lstrip closer ≠ [] →
      indentOf closer ≤ level →
      scanEnd level e j (blanks ++ closer :: post) = e := by
  induction blanks with
  | nil =>
    intro level e j closer post _ hc hi
    simp only [List.nil_append, scanEnd]
    rw [if_neg hc, if_pos hi]
  | cons b bs ih =>
    intro level e j closer post hb hc hi
    simp only [List.cons_append, scanEnd]
    rw [if_pos (hb b (by simp))]
    exact ih level e (j + 1) closer post (fun x hx => hb x (by simp [hx])) hc hi

/-- The scan over a block body (blank-or-deeper lines, a final deeper
non-blank line, trailing blanks, then a non-blank dedented line) ends at
the final deeper non-blank line. -/
theorem scanEnd_last (front : List (List Char)) :
    ∀ (level : Nat) (e j : Int) (lastLine : List Char)
      (trailing : List (List Char)) (closer : List Char)
      (post : List (List Char)),
      (∀ t ∈ front, lstrip t = [] ∨ level < indentOf t) →
      lstrip lastLine ≠ [] →
      level < indentOf lastLine →
      (∀ b ∈ trailing, lstrip b = []) →
      lstrip closer ≠ [] →
      indentOf closer ≤ level →
      scanEnd level e j (front ++ lastLine :: (trailing ++ closer :: post)) =
        j + front.length := by
  induction front with
  | nil =>
    intro level e j lastLine trailing closer post _ hl hli htr hc hi
    simp only [List.nil_append, scanEnd]
    rw [if_neg hl, if_neg (by omega)]
    rw [scanEnd_blanks trailing level j (j + 1) closer post htr hc hi]
    simp
  | cons t front' ih =>
    intro level e j lastLine trailing closer post hf hl hli htr hc hi
    have hf' : ∀ x ∈ front', lstrip x = [] ∨ level < indentOf x :=
      fun x hx => hf x (by simp [hx])
    simp only [List.cons_append, scanEnd, List.append_eq]
    by_cases hb : lstrip t = []
    · rw [if_pos hb]
      rw [ih level e (j + 1) lastLine trailing closer post hf' hl hli htr hc hi]
      simp only [List.length_cons]
      push_cast
      ring
    · have hind : level < indentOf t := (hf t (by simp)).resolve_left hb
      rw [if_neg hb, if_neg (by omega)]
      rw [ih level j (j + 1) lastLine trailing closer post hf' hl hli htr hc hi]
      simp only [List.length_cons]
      push_cast
      ring

theorem orElseOpt_assoc (a b c : Option FoldRegion) :
    orElseOpt (orElseOpt a b) c = orElseOpt a (orElseOpt b c) := by
  cases a <;> rfl

/-- The bracket stack produced by one character step does not depend on
the map being built. -/
theorem pairedStep_fst (bn : Int) (st : List (Char × Int)) (m m' : FoldMap)
    (c : Char) : (pairedStep bn st m c).1 = (pairedStep bn st m' c).1 := by
  unfold pairedStep
  split
  · rfl
  · split
    · cases st with
      | nil => rfl
      | cons hd tl =>
        obtain ⟨oc, ob⟩ := hd
        dsimp only
        split
        · split <;> rfl
        · rfl
    · rfl

/-- One character step over an initial map agrees with the step's own
write first, falling back to the initial map. -/
theorem pairedStep_or (bn : Int) (st : List (Char × Int)) (m : FoldMap)
    (c : Char) (s : Int) :
    (pairedStep bn st m c).2 s =
      orElseOpt ((pairedStep bn st emptyFoldMap c).2 s) (m s) := by
  unfold pairedStep
  split
  · rfl
  · split
    · cases st with
      | nil => rfl
      | cons hd tl =>
        obtain ⟨oc, ob⟩ := hd
        dsimp only
        split
        · split
          · by_cases h : s = ob <;>
              simp [insertRegion, h, orElseOpt, emptyFoldMap]
          · rfl
        · rfl
    · rfl

theorem pairedLine_fst (cs : List Char) :
    ∀ (bn : Int) (st : List (Char × Int)) (m m' : FoldMap),
      (pairedLine bn cs st m).1 = (pairedLine bn cs st m').1 := by
  induction cs with
  | nil => intros; rfl
  | cons c cs' ih =>
    intro bn st m m'
    simp only [pairedLine]
    rw [pairedStep_fst bn st m m' c]
    exact ih bn _ _ _

/-- A per-line run over an initial map agrees with the run's own writes
first, falling back to the initial map. -/
theorem pairedLine_or (cs : List Char) :
    ∀ (bn : Int) (st : List (Char × Int)) (m : FoldMap) (s : Int),
      (pairedLine bn cs st m).2 s =
        orElseOpt ((pairedLine bn cs st emptyFoldMap).2 s) (m s) := by
  induction cs with
  | nil => intros; rfl
  | cons c cs' ih =>
    intro bn st m s
    simp only [pairedLine]
    rw [ih bn (pairedStep bn st m c).1 (pairedStep bn st m c).2 s,
      ih bn (pairedStep bn st emptyFoldMap c).1
        (pairedStep bn st emptyFoldMap c).2 s,
      pairedStep_or bn st m c s,
      pairedStep_fst bn st m emptyFoldMap c,
      orElseOpt_assoc]

/-- The paired-delimiter pass over an initial map agrees with the pass's
own writes first, falling back to the initial map: the pass overwrites
whatever the initial map held at any key it records. -/
theorem pairedAux_or (ls : List (List Char)) :
    ∀ (bn : Int) (st : List (Char × Int)) (m : FoldMap) (s : Int),
      pairedAux bn ls st m s =
        orElseOpt (pairedAux bn ls st emptyFoldMap s) (m s) := by
  induction ls with
  | nil => intros; rfl
  | cons l rest ih =>
    intro bn st m s
    simp only [pairedAux]
    rw [ih (bn + 1) (pairedLine bn (rstrip l) st m).1
        (pairedLine bn (rstrip l) st m).2 s,
      ih (bn + 1) (pairedLine bn (rstrip l) st emptyFoldMap).1
        (pairedLine bn (rstrip l) st emptyFoldMap).2 s,
      pairedLine_or (rstrip l) bn st m s,
      pairedLine_fst (rstrip l) bn st m emptyFoldMap,
      orElseOpt_assoc]

/-- Every region of the map satisfies `start_block < end_block`. -/
def RegionsWF (m : FoldMap) : Prop :=
  ∀ s r, m s = some r → r.start_block < r.end_block

theorem regionsWF_empty : RegionsWF emptyFoldMap := by
  intro s r h
  simp [emptyFoldMap] at h

theorem regionsWF_insert (k : Int) (r : FoldRegion) (m : FoldMap)
    (hm : RegionsWF m) (hr : r.start_block < r.end_block) :
    RegionsWF (insertRegion k r m) := by
  intro s r' h
  unfold insertRegion at h
  by_cases hs : s = k
  · rw [if_pos hs] at h
    cases h
    exact hr
  · rw [if_neg hs] at h
    exact hm s r' h

theorem colonAux_wf (ls : List (List Char)) :
    ∀ (bn : Int) (m : FoldMap), RegionsWF m → RegionsWF (colonAux bn ls m) := by
  induction ls with
  | nil => intro bn m hm; exact hm
  | cons l rest ih =>
    intro bn m hm
    simp only [colonAux]
    apply ih
    split
    · split
      · rename_i h
        exact regionsWF_insert _ _ _ hm h
      · exact hm
    · exact hm

theorem pairedStep_wf (bn : Int) (st : List (Char × Int)) (m : FoldMap)
    (c : Char) (hm : RegionsWF m) : RegionsWF (pairedStep bn st m c).2 := by
  unfold pairedStep
  split
  · exact hm
  · split
    · cases st with
      | nil => exact hm
      | cons hd tl =>
        obtain ⟨oc, ob⟩ := hd
        dsimp only
        split
        · split
          · rename_i h
            exact regionsWF_insert _ _ _ hm h
          · exact hm
        · exact hm
    · exact hm

theorem pairedLine_wf (cs : List Char) :
    ∀ (bn : Int) (st : List (Char × Int)) (m : FoldMap),
      RegionsWF m → RegionsWF (pairedLine bn cs st m).2 := by
  induction cs with
  | nil => intro bn st m hm; exact hm
  | cons c cs' ih =>
    intro bn st m hm
    simp only [pairedLine]
    exact ih bn _ _ (pairedStep_wf bn st m c hm)

theorem pairedAux_wf (ls : List (List Char)) :
    ∀ (bn : Int) (st : List (Char × Int)) (m : FoldMap),
      RegionsWF m → RegionsWF (pairedAux bn ls st m) := by
  induction ls with
  | nil => intro bn st m hm; exact hm
  | cons l rest ih =>
    intro bn st m hm
    simp only [pairedAux]
    exact ih (bn + 1) _ _ (pairedLine_wf (rstrip l) bn st m hm)

/-- Characterization of `toggle_fold` at a present key. -/
theorem toggle_fold_present (s : EditorFoldState) (bn : Int) (r : FoldRegion)
    (hr : s.regions bn = some r) :
    toggle_fold bn s =
      { regions := insertRegion bn
          ⟨r.start_block, r.end_block, !r.is_folded⟩ s.regions
        visible := fun i =>
          if r.start_block + 1 ≤ i ∧ i ≤ r.end_block then !(!r.is_folded)
          else s.visible i
        foldEmits := s.foldEmits + 1 } := by
  unfold toggle_fold
  rw [hr]

/-! Claim theorems. -/

/-- Claim C3: when the indentation pass and the paired-delimiter pass both
record a region at the same start line, the region in the final map after
`analyze_fold_regions` is the paired-delimiter one, because that pass runs
second and overwrites the shared key. -/
theorem delimiter_fold_precedence (doc : List (List Char)) (s : Int)
    (r1 r2 : FoldRegion)
    (_hcolon : analyze_colon_blocks doc s = some r1)
    (hpaired : analyze_paired_char_blocks doc s = some r2) :
    analyze_fold_regions doc s = some r2 := by
  unfold analyze_fold_regions
  rw [pairedAux_or doc 0 [] (colonAux 0 doc emptyFoldMap) s]
  unfold analyze_paired_char_blocks at hpaired
  rw [hpaired]
  rfl

/-- Witness for C3 on a concrete document whose first line both ends with
`':'` and opens a bracket closed on line 2: the final region is `(0, 2)`. -/
theorem delimiter_fold_precedence_witness :
    analyze_fold_regions demoDocBoth 0 = some ⟨0, 2, false⟩ :=
  delimiter_fold_precedence demoDocBoth 0 ⟨0, 1, false⟩ ⟨0, 2, false⟩
    (by decide) (by decide)

/-- Claim C4: a trimmed line ending with `':'`, followed by deeper-indented
lines (with interspersed blank lines, which are skipped and do not stop
the scan) and then a non-blank line at equal-or-lesser indent, yields a
region in the indentation pass whose end line is the last deeper
non-blank line. -/
theorem indentation_fold_end_line
    (pre front trailing post : List (List Char))
    (opener lastLine closer : List Char)
    (hop : isColonOpener opener = true)
    (hfront : ∀ t ∈ front, lstrip t = [] ∨ indentOf opener < indentOf t)
    (hlast : lstrip lastLine ≠ [])
    (hlasti : indentOf opener < indentOf lastLine)
    (htrail : ∀ b ∈ trailing, lstrip b = [])
    (hclose : lstrip closer ≠ [])
    (hclosei : indentOf closer ≤ indentOf opener) :
    analyze_colon_blocks
        (pre ++ opener :: (front ++ lastLine :: (trailing ++ closer :: post)))
        (pre.length : Int) =
      some ⟨(pre.length : Int),
        (pre.length : Int) + 1 + (front.length : Int), false⟩ := by
  unfold analyze_colon_blocks
  apply colonAux_at pre 0 emptyFoldMap opener
      (front ++ lastLine :: (trailing ++ closer :: post))
      (pre.length : Int) ((pre.length : Int) + 1 + (front.length : Int))
  · omega
  · exact hop
  · rw [scanEnd_last front (indentOf opener) (pre.length : Int)
      ((pre.length : Int) + 1) lastLine trailing closer post hfront hlast
      hlasti htrail hclose hclosei]
  · omega

/-- Witness for C4 on `["if a:", "  b", "", "  c", "d"]`: the recorded
region ends at line 3, the last non-blank deeper line. -/
theorem indentation_fold_end_line_witness :
    analyze_colon_blocks demoDocColon 0 = some ⟨0, 3, false⟩ := by
  have h := indentation_fold_end_line [] ["  b".toList, "".toList] [] []
    ("if a:".toList) ("  c".toList) ("d".toList)
    (by decide) (by decide) (by decide) (by decide) (by decide) (by decide)
    (by decide)
  simpa using h

/-- Claim C9: after a full analysis pass, every recorded region satisfies
`end_line > start_line`, under both passes. -/
theorem fold_region_minimality (doc : List (List Char)) (s : Int)
    (r : FoldRegion) (h : analyze_fold_regions doc s = some r) :
    r.start_block < r.end_block :=
  pairedAux_wf doc 0 [] (colonAux 0 doc emptyFoldMap)
    (colonAux_wf doc 0 emptyFoldMap regionsWF_empty) s r h

/-- Witness for C9 on a concrete two-line document. -/
theorem fold_region_minimality_witness :
    (⟨0, 1, false⟩ : FoldRegion).start_block <
      (⟨0, 1, false⟩ : FoldRegion).end_block :=
  fold_region_minimality demoDocMin 0 ⟨0, 1, false⟩ (by decide)

/-- Claim C2 (amended): toggling a region twice returns every contained
line's visibility to its pre-toggle state provided every line strictly
inside the region was, before the toggle, visible iff the region was
unfolded (in particular, no folded nested region was hiding any of them);
lines outside the region are never touched.  Without that proviso the
double toggle sets every contained line's visibility to `not is_folded`,
revealing lines a folded nested region had hidden (see the
counterexample). -/
theorem toggle_fold_double_restores (s : EditorFoldState) (bn : Int)
    (r : FoldRegion) (hr : s.regions bn = some r)
    (hv : ∀ i : Int, r.start_block + 1 ≤ i → i ≤ r.end_block →
      s.visible i = !r.is_folded) :
    ∀ i : Int, (toggle_fold bn (toggle_fold bn s)).visible i = s.visible i := by
  intro i
  rw [toggle_fold_present s bn r hr]
  rw [toggle_fold_present _ bn ⟨r.start_block, r.end_block, !r.is_folded⟩
    (insertRegion_self bn _ s.regions)]
  dsimp only
  by_cases hin : r.start_block + 1 ≤ i ∧ i ≤ r.end_block
  · rw [if_pos hin, Bool.not_not]
    exact (hv i hin.1 hin.2).symm
  · rw [if_neg hin, if_neg hin]

/-- Witness for the amended C2 on a state whose contained lines are all
visible and whose single region `(0, 2)` is unfolded. -/
theorem toggle_fold_double_restores_witness :
    (toggle_fold 0 (toggle_fold 0 demoFoldState)).visible 1 =
      demoFoldState.visible 1 :=
  toggle_fold_double_restores demoFoldState 0 ⟨0, 2, false⟩ (by decide)
    (fun _ _ _ => rfl) 1

/-- Counterexample to C2 as stated: with an outer region `(0, 5)` and a
nested, currently folded region `(2, 4)` (blocks 3 and 4 hidden), toggling
the outer region twice leaves block 3 visible, not in its hidden
pre-toggle state. -/
theorem toggle_fold_nested_counterexample :
    ¬ ((toggle_fold 0 (toggle_fold 0 demoNestedState)).visible 3 =
        demoNestedState.visible 3) := by decide

/-- Claim C10: invoking `toggle_fold` with any block number that is not a
key of the fold-region map (including `-1`) is a complete no-op: the map,
every visibility flag and the `folding_changed` emission count are all
unchanged, and no exception is possible. -/
theorem toggle_fold_absent_noop (s : EditorFoldState) (bn : Int)
    (h : s.regions bn = none) : toggle_fold bn s = s := by
  unfold toggle_fold
  rw [h]

/-- Witness for C10 at block number `-1` (the "click outside all blocks"
value) on a state holding one region. -/
theorem toggle_fold_absent_noop_witness :
    toggle_fold (-1) demoToggleState = demoToggleState :=
  toggle_fold_absent_noop demoToggleState (-1) (by decide)

/-- A Boolean prefix test certifies that dropping the test list's length
from the tested list and re-appending the test list is the identity. -/
theorem isPrefixOf_append_drop (p : List Char) :
    ∀ l : List Char, p.isPrefixOf l = true → p ++ l.drop p.length = l := by
  induction p with
  | nil => intro l _; rfl
  | cons a as ih =>
    intro l h
    cases l with
    | nil => simp [List.isPrefixOf] at h
    | cons b bs =>
      simp only [List.isPrefixOf, Bool.and_eq_true, beq_iff_eq] at h
      obtain ⟨rfl, h2⟩ := h
      simp only [List.length_cons, List.drop_succ_cons, List.cons_append,
        List.cons.injEq, true_and]
      exact ih bs h2

/-- A list not containing `'('` is unchanged by taking up to `'('`. -/
theorem takeWhile_no_paren (l : List Char) :
    l.contains '(' = false → l.takeWhile (fun c => c ≠ '(') = l := by
  induction l with
  | nil => intro _; rfl
  | cons c cs ih =>
    intro h
    rw [List.contains_cons] at h
    simp only [Bool.or_eq_false_iff, beq_eq_false_iff_ne, ne_eq] at h
    obtain ⟨h1, h2⟩ := h
    rw [List.takeWhile_cons,
      if_pos (by simp only [decide_eq_true_eq]; exact fun hh => h1 hh.symm),
      ih h2]

/-- The bare name computed by `_insert_completion` (`split('(', 1)[0]`)
is the portion of the candidate before any `'('`. -/
theorem name_only_of_eq_bare (chosen : List Char) :
    name_only_of chosen = specBareName chosen := by
  unfold name_only_of specBareName
  by_cases h : chosen.contains '(' = true
  · rw [if_pos h]
  · rw [if_neg h]
    exact (takeWhile_no_paren chosen (Bool.not_eq_true _ ▸ h)).symm

/-- Claim C6: accepting a candidate inserts exactly the remainder of the
candidate's bare name (the part before any `'('` suffix) after the typed
caret word — appending the inserted text to the typed word reconstructs
the bare name — and inserts the whole bare name when the bare name does
not start with the typed word; in particular word "pri" with candidate
"print" or "print(...)" inserts exactly "nt". -/
theorem accept_remainder_correctness :
    (∀ chosen typed : List Char,
      (typed.isPrefixOf (specBareName chosen) = true →
        typed ++ insert_completion_text chosen typed = specBareName chosen) ∧
      (typed.isPrefixOf (specBareName chosen) = false →
        insert_completion_text chosen typed = specBareName chosen)) ∧
    insert_completion_text ("print".toList) ("pri".toList) = "nt".toList ∧
    insert_completion_text ("print(...)".toList) ("pri".toList) =
      "nt".toList := by
  refine ⟨fun chosen typed => ⟨fun h => ?_, fun h => ?_⟩, by decide, by decide⟩
  · unfold insert_completion_text
    rw [name_only_of_eq_bare, if_pos h]
    exact isPrefixOf_append_drop typed _ h
  · unfold insert_completion_text
    rw [name_only_of_eq_bare, if_neg (by simp [h])]

/-- Witness for C6: with typed word "pri" and candidate "print(...)",
typed word plus inserted text reconstructs the bare name "print". -/
theorem accept_remainder_correctness_witness :
    ("pri".toList) ++ insert_completion_text ("print(...)".toList)
        ("pri".toList) =
      specBareName ("print(...)".toList) :=
  (accept_remainder_correctness.1 ("print(...)".toList) ("pri".toList)).1
    (by decide)

/-- Claim C7: when the identifier-class word immediately left of the caret
is empty and the character left of the caret is not `'.'`, the trigger
makes no request: the job counter is not incremented, the pending context
and debounce timer are untouched, and any visible popup is hidden. -/
theorem empty_word_suppression (readOnly : Bool) (lineText : List Char)
    (col : Nat) (docText : String) (docLine docCol : Nat)
    (s : CompletionState)
    (h1 : current_word lineText col = [])
    (h2 : char_left_of_caret lineText col ≠ some '.') :
    maybe_trigger_completions readOnly lineText col docText docLine docCol s =
      { s with popup := none } := by
  unfold maybe_trigger_completions
  split
  · rfl
  · rw [if_pos ⟨h1, h2⟩]

/-- Witness for C7: caret after the space in "x = " dispatches nothing and
hides the popup. -/
theorem empty_word_suppression_witness :
    maybe_trigger_completions false ("x = ".toList) 4 "x = " 1 4
        ⟨5, none, false, some ["print"]⟩ =
      ⟨5, none, false, none⟩ :=
  empty_word_suppression false ("x = ".toList) 4 "x = " 1 4
    ⟨5, none, false, some ["print"]⟩ (by decide) (by decide)

/-- Claim C1: a delivered result updates the popup only when its job id
equals the latest issued id — any result with a different (in particular,
earlier) id leaves the whole completion state unchanged, regardless of
arrival order.  In particular, after keystrokes issue jobs 1, 2, 3,
delivering results in the order 3, 1, 2 shows job 3's candidates and the
stale deliveries of jobs 1 and 2 have no effect at all. -/
theorem completion_staleness_filtering :
    (∀ (auto : Bool) (job_id : Nat) (names : List String)
        (s : CompletionState),
      job_id ≠ s.jobId → on_completion_results auto job_id names s = s) ∧
    (∀ cA cB cC : List String, cC ≠ [] →
      (on_completion_results true 3 cC issued_three).popup = some cC ∧
      on_completion_results true 1 cA
          (on_completion_results true 3 cC issued_three) =
        on_completion_results true 3 cC issued_three ∧
      on_completion_results true 2 cB
          (on_completion_results true 1 cA
            (on_completion_results true 3 cC issued_three)) =
        on_completion_results true 3 cC issued_three) := by
  have hstale : ∀ (auto : Bool) (job_id : Nat) (names : List String)
      (s : CompletionState),
      job_id ≠ s.jobId → on_completion_results auto job_id names s = s := by
    intro auto job_id names s h
    unfold on_completion_results
    rw [if_pos h]
  refine ⟨hstale, fun cA cB cC hC => ?_⟩
  have h3 : issued_three = ⟨3, some ("pri", 1, 3), true, none⟩ := by decide
  have ht : on_completion_results true 3 cC issued_three =
      ⟨3, some ("pri", 1, 3), true, some cC⟩ := by
    rw [h3]
    unfold on_completion_results
    rw [if_neg (by simp), if_neg hC, if_pos rfl]
  have hjob : (on_completion_results true 3 cC issued_three).jobId = 3 := by
    rw [ht]
  have hd1 : on_completion_results true 1 cA
      (on_completion_results true 3 cC issued_three) =
      on_completion_results true 3 cC issued_three :=
    hstale true 1 cA _ (by rw [hjob]; decide)
  refine ⟨by rw [ht], hd1, ?_⟩
  rw [hd1]
  exact hstale true 2 cB _ (by rw [hjob]; decide)

/-- Witness for C1: a result for job 1 arriving while job 2 is the latest
is dropped without effect; delivering job 3's nonempty result after jobs
1, 2, 3 were issued shows exactly those candidates. -/
theorem completion_staleness_filtering_witness :
    on_completion_results true 1 [] ⟨2, none, false, none⟩ =
      ⟨2, none, false, none⟩ ∧
    (on_completion_results true 3 ["print"] issued_three).popup =
      some ["print"] :=
  ⟨completion_staleness_filtering.1 true 1 [] ⟨2, none, false, none⟩
      (by decide),
    (completion_staleness_filtering.2 [] [] ["print"] (by decide)).1⟩

/-- Claim C8: the worker converts any provider exception into the pair
`(job_id, [])` instead of propagating it, and on success it emits the
request's job id with at most 64 candidate names. -/
theorem worker_exception_boundary :
    (∀ (provider : String → Nat → Nat → Except String (List String))
        (text : String) (line col job_id : Nat) (e : String),
      provider text line col = Except.error e →
      worker_request provider text line col job_id = (job_id, [])) ∧
    (∀ (provider : String → Nat → Nat → Except String (List String))
        (text : String) (line col job_id : Nat) (comps : List String),
      provider text line col = Except.ok comps →
      (worker_request provider text line col job_id).1 = job_id ∧
      (worker_request provider text line col job_id).2.length ≤ 64) := by
  constructor
  · intro provider text line col job_id e h
    unfold worker_request
    rw [h]
  · intro provider text line col job_id comps h
    unfold worker_request
    rw [h]
    exact ⟨rfl, List.length_take_le 64 comps⟩

/-- Witness for C8: a raising provider yields `(7, [])`; a successful
provider's output is capped at 64 names. -/
theorem worker_exception_boundary_witness :
    worker_request (fun _ _ _ => Except.error "jedi failed") "t" 1 0 7 =
      (7, []) ∧
    (worker_request (fun _ _ _ => Except.ok ["abs", "all"]) "t" 1 0 7).2.length
      ≤ 64 :=
  ⟨worker_exception_boundary.1 (fun _ _ _ => Except.error "jedi failed")
      "t" 1 0 7 "jedi failed" rfl,
    (worker_exception_boundary.2 (fun _ _ _ => Except.ok ["abs", "all"])
      "t" 1 0 7 ["abs", "all"] rfl).2⟩

/-- Claim C5 (amended): a text change empties `cached_lines`, clears the
colour cache and additionally sets `cached_visible_blocks` to `None` —
the text-change invalidation subsumes the visible-blocks one, so the two
invalidations are not independent.  The folding-change handler, when run,
unsets only `cached_visible_blocks`; but the minimap connects it only when
the editor has an attribute named `foldingChanged`, and `CodeEditor`'s
signal is named `folding_changed`, so for this editor a folding change
triggers no cache invalidation at all. -/
theorem minimap_cache_invalidation :
    (∀ s : MinimapCacheState,
      (minimap_on_text_changed s).cachedLines = [] ∧
      (minimap_on_text_changed s).cachedVisibleBlocks = none ∧
      (minimap_on_text_changed s).colorCache = []) ∧
    (∀ s : MinimapCacheState,
      (minimap_on_folding_changed s).cachedVisibleBlocks = none ∧
      (minimap_on_folding_changed s).cachedLines = s.cachedLines ∧
      (minimap_on_folding_changed s).colorCache = s.colorCache) ∧
    hasFoldingChangedAttr codeEditorAttrNames = false ∧
    (∀ s : MinimapCacheState,
      deliver_folding_changed codeEditorAttrNames s = s) := by
  refine ⟨fun s => ⟨rfl, rfl, rfl⟩, fun s => ⟨rfl, rfl, rfl⟩, by decide,
    fun s => ?_⟩
  unfold deliver_folding_changed
  rw [if_neg (by decide)]

/-- Counterexample to C5 as stated: a text change does force the
visible-blocks invalidation — on a state with a populated
`cached_visible_blocks`, `_on_text_changed` resets it to `None`. -/
theorem minimap_text_change_counterexample :
    ¬ ((minimap_on_text_changed demoMinimapState).cachedVisibleBlocks =
        demoMinimapState.cachedVisibleBlocks) := by decide
